import Mathlib

/-!
Verification development for the bge-data-server pipeline (src/main.rs):
formatting labeled examples into directional prompts, tokenizing and
filtering them, greedily packing the accepted token sequences into
fixed-width zero-padded buffers, and serving the packed dataset by index.

Token ids (`u16` in the source) are modelled as `Nat`; the packing logic
never exercises integer overflow, so no modular arithmetic is needed.
-/

/-- Fixed buffer capacity, `const MAX_LEN: usize = 4096` in the source. -/
def MAX_LEN : Nat := 4096

/-- One parsed input record, `struct DataItem` in the source:
a query together with positive and negative passages. -/
structure DataItem where
  query : String
  pos : List String
  neg : List String

/-- Embedding of `DataItem::format`: push one formatted string per positive
passage (marker `+`), then one per negative passage (marker `-`); each is
passage, delimiter `\x16`, query, delimiter `\x17`, the marker, and a
terminating NUL, exactly as the `format!` template in the source. -/
def DataItem.format (item : DataItem) : List String :=
  let prompts : List String := []
  let prompts := item.pos.foldl
    (fun acc prompt => acc ++ [prompt ++ "\x16" ++ item.query ++ "\x17" ++ "+" ++ "\x00"]) prompts
  let prompts := item.neg.foldl
    (fun acc prompt => acc ++ [prompt ++ "\x16" ++ item.query ++ "\x17" ++ "-" ++ "\x00"]) prompts
  prompts

/-- Embedding of the Encoder stage: `text.filter_map(|p| tokenizer.encode(p).ok())
.filter(|p| p.len() < MAX_LEN)`. The tokenizer is external, so it is a
parameter `encode`; `none` models an encoding failure. -/
def encodeTokens (encode : String → Option (List Nat)) (text : List String) : List (List Nat) :=
  (text.filterMap encode).filter (fun prompt => prompt.length < MAX_LEN)

/-- Embedding of `buffer[start..end].copy_from_slice(&data)` with
`end = start + data.len()`: overwrite the slice, leave the rest. -/
def copyFromSlice (buffer : List Nat) (start : Nat) (data : List Nat) : List Nat :=
  buffer.take start ++ data ++ buffer.drop (start + data.length)

/-- Mutable state of the packing loop: the buffers built so far (`padded`)
and the write cursor into the last one (`start`). -/
structure PackState where
  padded : List (List Nat)
  start : Nat

/-- One iteration of the packing loop in `main`. The first match mirrors
`match (padded.last_mut(), end <= MAX_LEN)`: keep the current buffer when one
exists and the sequence fits, otherwise push a fresh zeroed buffer and reset
the cursor. The copy returns `none` when the Rust code would panic: the slice
`buffer[start..end]` out of bounds, or the `assert_eq!(buffer.len(), MAX_LEN)`
failing. -/
def packStep (s : PackState) (data : List Nat) : Option PackState :=
  let p :=
    match s.padded.getLast? with
    | some _ =>
      if s.start + data.length ≤ MAX_LEN then (s.padded, s.start)
      else (s.padded ++ [List.replicate MAX_LEN 0], 0)
    | none => (s.padded ++ [List.replicate MAX_LEN 0], 0)
  match p.1.getLast? with
  | none => none
  | some buffer =>
    if p.2 + data.length ≤ buffer.length then
      let written := copyFromSlice buffer p.2 data
      if written.length = MAX_LEN then
        some ⟨p.1.dropLast ++ [written], p.2 + data.length⟩
      else none
    else none

/-- The `for data in tokens` loop of `main`, starting from a given state;
`none` propagates a panic. -/
def packLoop : PackState → List (List Nat) → Option PackState
  | s, [] => some s
  | s, data :: rest =>
    match packStep s data with
    | none => none
    | some t => packLoop t rest

/-- The Packer: run the loop from the empty state (`padded = vec![]`,
`start = 0`) and return the buffers. -/
def packTokens (tokens : List (List Nat)) : Option (List (List Nat)) :=
  Option.map PackState.padded (packLoop ⟨[], 0⟩ tokens)

/-- Embedding of the per-file body of `main`: flatten the formatted prompts
of every record (the rayon map/reduce concatenation preserves order), encode
and filter them, and pack the accepted sequences. -/
def processFile (encode : String → Option (List Nat)) (data : List DataItem) :
    Option (List (List Nat)) :=
  packTokens (encodeTokens encode ((data.map DataItem.format).flatten))

/-- Failure modes of the ingestion loop: a file that fails to read or parse
(the `?` on `json_lines(..).try_collect()`), or a panic inside the packing
loop. -/
inductive PipeError where
  | parse (msg : String)
  | copyFault

/-- The `for (id, path) in paths` loop of `main`: each file either parses to
its records or fails; a parse failure aborts the whole run via `?`, and each
file's buffers are appended to the global dataset. -/
def pipelineLoop (encode : String → Option (List Nat)) :
    List (List Nat) → List (Except String (List DataItem)) → Except PipeError (List (List Nat))
  | dataset, [] => Except.ok dataset
  | dataset, file :: rest =>
    match file with
    | Except.error e => Except.error (PipeError.parse e)
    | Except.ok data =>
      match processFile encode data with
      | none => Except.error PipeError.copyFault
      | some padded => pipelineLoop encode (dataset ++ padded) rest

/-- The Corpus Loader: run the ingestion loop over all files with an
initially empty dataset. -/
def runPipeline (encode : String → Option (List Nat))
    (files : List (Except String (List DataItem))) : Except PipeError (List (List Nat)) :=
  pipelineLoop encode [] files

/-- Response of the `/item` route: the selected buffer (serialized by axum's
`Json`, which is external), or HTTP 404. -/
inductive ItemResponse where
  | ok (data : List Nat)
  | notFound

/-- Embedding of `dataset_len`: `state.dataset.len().to_string()`. -/
def dataset_len (dataset : List (List Nat)) : String :=
  toString dataset.length

/-- Embedding of `dataset_item`: `dataset.iter().nth(idx)` is the optional
element at zero-based `idx`; `Some` answers with the buffer, `None` with
`StatusCode::NOT_FOUND`. -/
def dataset_item (dataset : List (List Nat)) (idx : Nat) : ItemResponse :=
  match dataset[idx]? with
  | some data => ItemResponse.ok data
  | none => ItemResponse.notFound

/-!
Analysis layer: the packing loop is characterised by the partition of its
input into consecutive groups, one group per emitted buffer. These
definitions are not part of the embedding; they exist to state and prove
properties of `packTokens`.
-/

/-- Total token count of one group of sequences. -/
def groupContent (g : List (List Nat)) : Nat :=
  (g.map List.length).sum

/-- The buffer a group denotes: its sequences concatenated, zero-padded to
`MAX_LEN`. -/
def mkBuffer (g : List (List Nat)) : List Nat :=
  g.flatten ++ List.replicate (MAX_LEN - g.flatten.length) 0

/-- Grouping analogue of `packStep`: append to the last group when the
sequence fits, else open a new group. -/
def groupStep (acc : List (List (List Nat))) (data : List Nat) : List (List (List Nat)) :=
  match acc.getLast? with
  | none => acc ++ [[data]]
  | some g =>
    if groupContent g + data.length ≤ MAX_LEN then acc.dropLast ++ [g ++ [data]]
    else acc ++ [[data]]

/-- The greedy grouping of a whole input list. -/
def greedyGroups (tokens : List (List Nat)) : List (List (List Nat)) :=
  tokens.foldl groupStep []

/-- Content of the last group; this is what the cursor `start` equals. -/
def lastContent (acc : List (List (List Nat))) : Nat :=
  match acc.getLast? with
  | none => 0
  | some g => groupContent g

/-- Invariant of the grouping: groups are nonempty and never overfull. -/
def GroupsInv (acc : List (List (List Nat))) : Prop :=
  ∀ g ∈ acc, g ≠ [] ∧ groupContent g ≤ MAX_LEN

/-- Spec-side single step, modelled from the spec's words (§4.3 greedy
first-fit-append): if no current buffer exists or the sequence would
overflow, allocate a fresh zeroed buffer of exactly `MAX_LEN`, push it and
reset the cursor; then copy the sequence at the cursor and advance. -/
def firstFitStep (s : PackState) (data : List Nat) : PackState :=
  let p :=
    if s.padded = [] ∨ MAX_LEN < s.start + data.length then
      (s.padded ++ [List.replicate MAX_LEN 0], 0)
    else (s.padded, s.start)
  ⟨p.1.dropLast ++ [copyFromSlice (p.1.getLastD []) p.2 data], p.2 + data.length⟩

theorem groupContent_eq_length_flatten (g : List (List Nat)) :
    groupContent g = g.flatten.length := by
  simp [groupContent, List.length_flatten]

theorem mkBuffer_length (g : List (List Nat)) (h : groupContent g ≤ MAX_LEN) :
    (mkBuffer g).length = MAX_LEN := by
  rw [groupContent_eq_length_flatten] at h
  simp only [mkBuffer, List.length_append, List.length_replicate]
  omega

theorem copyFromSlice_mkBuffer (g : List (List Nat)) (data : List Nat) :
    copyFromSlice (mkBuffer g) (groupContent g) data = mkBuffer (g ++ [data]) := by
  rw [groupContent_eq_length_flatten]
  unfold copyFromSlice mkBuffer
  rw [List.take_left, List.drop_append, List.drop_replicate, List.flatten_concat,
    List.length_append, Nat.sub_sub]

theorem groupContent_append_single (g : List (List Nat)) (data : List Nat) :
    groupContent (g ++ [data]) = groupContent g + data.length := by
  simp [groupContent]

theorem copy_fresh (data : List Nat) :
    copyFromSlice (List.replicate MAX_LEN 0) 0 data = mkBuffer [data] := by
  have h := copyFromSlice_mkBuffer [] data
  simpa [mkBuffer, groupContent] using h

theorem packStep_groupStep (acc : List (List (List Nat))) (data : List Nat)
    (hinv : GroupsInv acc) (hd : data.length ≤ MAX_LEN) :
    packStep ⟨acc.map mkBuffer, lastContent acc⟩ data
      = some ⟨(groupStep acc data).map mkBuffer, lastContent (groupStep acc data)⟩ := by
  rcases hlast : acc.getLast? with _ | g
  · have hnil : acc = [] := List.getLast?_eq_none_iff.mp hlast
    subst hnil
    have hbl : (mkBuffer [data]).length = MAX_LEN :=
      mkBuffer_length _ (by simpa [groupContent] using hd)
    simp [packStep, groupStep, lastContent, copy_fresh, hbl, hd, groupContent]
  · have hA : acc.dropLast ++ [g] = acc := List.dropLast_append_getLast? g (by simp [hlast])
    have hmem : g ∈ acc := by
      rw [← hA]; simp
    obtain ⟨hgne, hgle⟩ := hinv g hmem
    by_cases hfit : groupContent g + data.length ≤ MAX_LEN
    · have hw : copyFromSlice (mkBuffer g) (groupContent g) data = mkBuffer (g ++ [data]) :=
        copyFromSlice_mkBuffer g data
      have hwlen : (mkBuffer (g ++ [data])).length = MAX_LEN :=
        mkBuffer_length _ (by simpa [groupContent_append_single] using hfit)
      simp [packStep, groupStep, lastContent, List.getLast?_map, hlast, hfit,
        mkBuffer_length g hgle, hw, hwlen, groupContent_append_single,
        List.map_dropLast, List.getLast?_concat, List.dropLast_concat, List.map_append]
    · have hbl : (mkBuffer [data]).length = MAX_LEN :=
        mkBuffer_length _ (by simpa [groupContent] using hd)
      have hc1 : groupContent [data] = data.length := by simp [groupContent]
      simp [packStep, groupStep, lastContent, List.getLast?_map, hlast, hfit,
        copy_fresh, hbl, hd, hc1, List.getLast?_concat, List.dropLast_concat,
        List.map_append]

theorem groupsInv_step (acc : List (List (List Nat))) (data : List Nat)
    (hinv : GroupsInv acc) (hd : data.length ≤ MAX_LEN) :
    GroupsInv (groupStep acc data) := by
  unfold groupStep
  rcases hlast : acc.getLast? with _ | g
  · intro g hg
    have hnil : acc = [] := List.getLast?_eq_none_iff.mp hlast
    subst hnil
    simp at hg
    subst hg
    exact ⟨by simp, by simpa [groupContent] using hd⟩
  · dsimp only
    by_cases hfit : groupContent g + data.length ≤ MAX_LEN
    · rw [if_pos hfit]
      intro x hx
      rcases List.mem_append.mp hx with hx | hx
      · exact hinv x ((List.dropLast_sublist acc).mem hx)
      · simp at hx
        subst hx
        exact ⟨by simp, by simpa [groupContent_append_single] using hfit⟩
    · rw [if_neg hfit]
      intro x hx
      rcases List.mem_append.mp hx with hx | hx
      · exact hinv x hx
      · simp at hx
        subst hx
        exact ⟨by simp, by simpa [groupContent] using hd⟩

theorem packLoop_greedy (tokens : List (List Nat)) (acc : List (List (List Nat)))
    (hinv : GroupsInv acc) (ht : ∀ s ∈ tokens, s.length ≤ MAX_LEN) :
    packLoop ⟨acc.map mkBuffer, lastContent acc⟩ tokens
      = some ⟨(tokens.foldl groupStep acc).map mkBuffer,
              lastContent (tokens.foldl groupStep acc)⟩ := by
  induction tokens generalizing acc with
  | nil => simp [packLoop]
  | cons d rest ih =>
    have hd : d.length ≤ MAX_LEN := ht d (by simp)
    rw [List.foldl_cons]
    have hstep := packStep_groupStep acc d hinv hd
    simp only [packLoop, hstep]
    exact ih (groupStep acc d) (groupsInv_step acc d hinv hd) (fun s hs => ht s (by simp [hs]))

theorem packTokens_eq_greedy (tokens : List (List Nat))
    (ht : ∀ s ∈ tokens, s.length ≤ MAX_LEN) :
    packTokens tokens = some ((greedyGroups tokens).map mkBuffer) := by
  have h0 := packLoop_greedy tokens [] (fun g hg => absurd hg (List.not_mem_nil g)) ht
  simp only [List.map_nil, lastContent, List.getLast?_nil] at h0
  unfold packTokens greedyGroups
  rw [h0]
  rfl

theorem flatten_groupStep (acc : List (List (List Nat))) (data : List Nat) :
    (groupStep acc data).flatten = acc.flatten ++ [data] := by
  unfold groupStep
  rcases hlast : acc.getLast? with _ | g
  · simp [List.getLast?_eq_none_iff.mp hlast]
  · have hA : acc.dropLast ++ [g] = acc := List.dropLast_append_getLast? g (by simp [hlast])
    dsimp only
    by_cases hfit : groupContent g + data.length ≤ MAX_LEN
    · rw [if_pos hfit]
      conv_rhs => rw [← hA]
      simp [List.flatten_concat, List.append_assoc]
    · rw [if_neg hfit]
      simp [List.flatten_concat]

theorem flatten_foldl_groupStep (tokens : List (List Nat)) (acc : List (List (List Nat))) :
    (tokens.foldl groupStep acc).flatten = acc.flatten ++ tokens := by
  induction tokens generalizing acc with
  | nil => simp
  | cons d rest ih =>
    rw [List.foldl_cons, ih, flatten_groupStep]
    simp

theorem flatten_greedyGroups (tokens : List (List Nat)) :
    (greedyGroups tokens).flatten = tokens := by
  simpa [greedyGroups] using flatten_foldl_groupStep tokens []

theorem groupsInv_foldl (tokens : List (List Nat)) (acc : List (List (List Nat)))
    (hinv : GroupsInv acc) (ht : ∀ s ∈ tokens, s.length ≤ MAX_LEN) :
    GroupsInv (tokens.foldl groupStep acc) := by
  induction tokens generalizing acc with
  | nil => simpa
  | cons d rest ih =>
    rw [List.foldl_cons]
    exact ih (groupStep acc d) (groupsInv_step acc d hinv (ht d (by simp)))
      (fun s hs => ht s (by simp [hs]))

theorem groupsInv_greedy (tokens : List (List Nat))
    (ht : ∀ s ∈ tokens, s.length ≤ MAX_LEN) :
    GroupsInv (greedyGroups tokens) :=
  groupsInv_foldl tokens [] (fun g hg => absurd hg (List.not_mem_nil g)) ht

theorem copyFromSlice_length (buffer : List Nat) (start : Nat) (data : List Nat)
    (h : start + data.length ≤ buffer.length) :
    (copyFromSlice buffer start data).length = buffer.length := by
  simp [copyFromSlice]
  omega

theorem mkBuffer_slice (g : List (List Nat)) (s : List Nat) (hmem : s ∈ g)
    (hle : groupContent g ≤ MAX_LEN) :
    ∃ off, off + s.length ≤ MAX_LEN ∧ ((mkBuffer g).drop off).take s.length = s := by
  obtain ⟨pre, suf, rfl⟩ := List.append_of_mem hmem
  have hflat : (pre ++ s :: suf).flatten = pre.flatten ++ (s ++ suf.flatten) := by simp
  refine ⟨pre.flatten.length, ?_, ?_⟩
  · rw [groupContent_eq_length_flatten, hflat] at hle
    simp only [List.length_append] at hle
    omega
  · unfold mkBuffer
    rw [hflat, List.append_assoc, List.drop_left, List.append_assoc, List.take_left]

theorem mkBuffer_padding (g : List (List Nat)) (i : Nat)
    (h1 : g.flatten.length ≤ i) (h2 : i < MAX_LEN) :
    (mkBuffer g)[i]? = some 0 := by
  unfold mkBuffer
  rw [List.getElem?_append_right h1, List.getElem?_replicate, if_pos (by omega)]

theorem sum_map_groupContent (L : List (List (List Nat))) :
    (L.map groupContent).sum = (L.flatten.map List.length).sum := by
  induction L with
  | nil => simp
  | cons g rest ih => simp [groupContent, ih]

theorem sum_groupContent_le (L : List (List (List Nat)))
    (h : ∀ g ∈ L, groupContent g ≤ MAX_LEN) :
    (L.map groupContent).sum ≤ L.length * MAX_LEN := by
  induction L with
  | nil => simp
  | cons g rest ih =>
    simp only [List.map_cons, List.sum_cons, List.length_cons]
    have h1 := h g (by simp)
    have h2 := ih (fun x hx => h x (by simp [hx]))
    have h3 : (rest.length + 1) * MAX_LEN = rest.length * MAX_LEN + MAX_LEN := by ring
    omega

theorem length_le_length_flatten (L : List (List (List Nat)))
    (h : ∀ g ∈ L, g ≠ []) :
    L.length ≤ L.flatten.length := by
  induction L with
  | nil => simp
  | cons g rest ih =>
    simp only [List.flatten_cons, List.length_append, List.length_cons]
    have h1 : 0 < g.length := List.length_pos.mpr (h g (by simp))
    have h2 := ih (fun x hx => h x (by simp [hx]))
    omega

theorem ceil_div_le_of_le_mul (s k m : Nat) (hm : 0 < m) (h : s ≤ k * m) :
    (s + m - 1) / m ≤ k := by
  have h2 : s + m - 1 < (k + 1) * m := by
    have h3 : (k + 1) * m = k * m + m := by ring
    omega
  have := (Nat.div_lt_iff_lt_mul hm).mpr h2
  omega

theorem encodeTokens_lt (encode : String → Option (List Nat)) (text : List String) :
    ∀ s ∈ encodeTokens encode text, s.length < MAX_LEN := by
  intro s hs
  have h := (List.mem_filter.mp hs).2
  simpa using h

theorem processFile_some (encode : String → Option (List Nat)) (data : List DataItem) :
    ∃ padded, processFile encode data = some padded := by
  unfold processFile
  exact ⟨_, packTokens_eq_greedy _
    (fun s hs => Nat.le_of_lt (encodeTokens_lt encode _ s hs))⟩

theorem processFile_nil (encode : String → Option (List Nat)) :
    processFile encode [] = some [] := rfl

theorem pipelineLoop_ok (encode : String → Option (List Nat)) :
    ∀ (files : List (Except String (List DataItem))),
      (∀ f ∈ files, ∃ d, f = Except.ok d) →
      ∀ acc, ∃ dataset, pipelineLoop encode acc files = Except.ok dataset := by
  intro files
  induction files with
  | nil => exact fun _ acc => ⟨acc, rfl⟩
  | cons f rest ih =>
    intro hok acc
    obtain ⟨d, rfl⟩ := hok f (by simp)
    obtain ⟨padded, hps⟩ := processFile_some encode d
    obtain ⟨dataset, hds⟩ := ih (fun x hx => hok x (by simp [hx])) (acc ++ padded)
    exact ⟨dataset, by simp [pipelineLoop, hps, hds]⟩

theorem pipelineLoop_err (encode : String → Option (List Nat)) :
    ∀ (files : List (Except String (List DataItem))),
      (∃ msg, Except.error msg ∈ files) →
      ∀ acc, ∃ e, pipelineLoop encode acc files = Except.error e := by
  intro files
  induction files with
  | nil =>
    rintro ⟨msg, hm⟩
    simp at hm
  | cons f rest ih =>
    rintro ⟨msg, hm⟩ acc
    rcases f with msg0 | d
    · exact ⟨PipeError.parse msg0, by simp [pipelineLoop]⟩
    · obtain ⟨padded, hps⟩ := processFile_some encode d
      have hm2 : Except.error msg ∈ rest := by
        rcases List.mem_cons.mp hm with h | h
        · cases h
        · exact h
      obtain ⟨e, he⟩ := ih ⟨msg, hm2⟩ (acc ++ padded)
      exact ⟨e, by simp [pipelineLoop, hps, he]⟩

theorem pipelineLoop_skip_empty (encode : String → Option (List Nat))
    (pre post : List (Except String (List DataItem))) :
    ∀ acc, pipelineLoop encode acc (pre ++ Except.ok [] :: post)
      = pipelineLoop encode acc (pre ++ post) := by
  induction pre with
  | nil =>
    intro acc
    simp [pipelineLoop, processFile_nil]
  | cons f rest ih =>
    intro acc
    rcases f with msg | d
    · simp [pipelineLoop]
    · obtain ⟨padded, hps⟩ := processFile_some encode d
      simp [pipelineLoop, hps, ih]

theorem foldl_push_map {α β : Type} (f : α → β) (l : List α) (acc : List β) :
    l.foldl (fun acc x => acc ++ [f x]) acc = acc ++ l.map f := by
  induction l generalizing acc with
  | nil => simp
  | cons x rest ih => simp [ih]

theorem flatten_replicate_nil (n : Nat) :
    (List.replicate n ([] : List Nat)).flatten = [] := by
  induction n with
  | zero => simp
  | succ m ih => simp [List.replicate_succ, ih]

theorem groupContent_replicate_nil (k : Nat) :
    groupContent (List.replicate k ([] : List Nat)) = 0 := by
  simp [groupContent, List.map_replicate, List.sum_replicate]

theorem foldl_groupStep_replicate_nil (m : Nat) :
    ∀ k, 0 < k →
      (List.replicate m ([] : List Nat)).foldl groupStep [List.replicate k []]
        = [List.replicate (k + m) ([] : List Nat)] := by
  induction m with
  | zero => intro k _; simp
  | succ j ih =>
    intro k hk
    rw [List.replicate_succ, List.foldl_cons]
    have hstep : groupStep [List.replicate k ([] : List Nat)] [] = [List.replicate (k + 1) []] := by
      simp [groupStep, groupContent_replicate_nil, List.replicate_succ']
    rw [hstep]
    have := ih (k + 1) (by omega)
    rw [this]
    congr 1
    congr 1
    omega

/-- C1: every input TokenSequence `s` with `len(s) ≤ MAX_LEN` given to the
Packer appears contiguously within a single output PackedBuffer, at offsets
`[off, off + len(s))`; no sequence is split across two buffers. -/
theorem packer_never_splits (tokens : List (List Nat))
    (h : ∀ s ∈ tokens, s.length ≤ MAX_LEN) :
    ∃ bufs, packTokens tokens = some bufs ∧
      ∀ s ∈ tokens, ∃ b ∈ bufs, ∃ off,
        off + s.length ≤ MAX_LEN ∧ (b.drop off).take s.length = s := by
  refine ⟨(greedyGroups tokens).map mkBuffer, packTokens_eq_greedy tokens h, ?_⟩
  intro s hs
  have hs2 : s ∈ (greedyGroups tokens).flatten := by
    rw [flatten_greedyGroups]; exact hs
  obtain ⟨g, hg, hsg⟩ := List.mem_flatten.mp hs2
  obtain ⟨off, h1, h2⟩ := mkBuffer_slice g s hsg ((groupsInv_greedy tokens h g hg).2)
  exact ⟨mkBuffer g, List.mem_map_of_mem _ hg, off, h1, h2⟩

/-- Witness for C1 at the concrete input `[[1, 2, 3]]`. -/
theorem packer_never_splits_witness :
    ∃ bufs, packTokens [[1, 2, 3]] = some bufs ∧
      ∀ s ∈ ([[1, 2, 3]] : List (List Nat)), ∃ b ∈ bufs, ∃ off,
        off + s.length ≤ MAX_LEN ∧ (b.drop off).take s.length = s :=
  packer_never_splits [[1, 2, 3]] (by decide)

/-- C2: the Packer follows the greedy first-fit-append policy (`packStep`
refines the spec's step `firstFitStep` whenever every existing buffer has
length `MAX_LEN` and the sequence is not oversize), and on one sequence of
length `MAX_LEN - 1` followed by one of length 5 it emits exactly two
buffers, the first holding only the first sequence, the second starting
fresh with the second. -/
theorem packer_first_fit_policy :
    (∀ (s : PackState) (data : List Nat),
        (∀ b ∈ s.padded, b.length = MAX_LEN) → data.length ≤ MAX_LEN →
        packStep s data = some (firstFitStep s data)) ∧
    (∀ s1 s2 : List Nat, s1.length = MAX_LEN - 1 → s2.length = 5 →
        packTokens [s1, s2]
          = some [s1 ++ List.replicate 1 0, s2 ++ List.replicate (MAX_LEN - 5) 0]) := by
  constructor
  · intro s data hlen hd
    obtain ⟨padded, start⟩ := s
    rcases hlast : padded.getLast? with _ | b
    · have hnil : padded = [] := List.getLast?_eq_none_iff.mp hlast
      subst hnil
      have hcl : (copyFromSlice (List.replicate MAX_LEN 0) 0 data).length = MAX_LEN := by
        rw [copy_fresh]
        exact mkBuffer_length _ (by simpa [groupContent] using hd)
      simp [packStep, firstFitStep, hcl, hd]
    · have hne : padded ≠ [] := by
        intro hc
        rw [hc] at hlast
        simp at hlast
      have hb : b ∈ padded := by
        have hA : padded.dropLast ++ [b] = padded :=
          List.dropLast_append_getLast? b (by simp [hlast])
        rw [← hA]; simp
      have hbl : b.length = MAX_LEN := hlen b hb
      have hgd : padded.getLastD [] = b := by
        rw [List.getLastD_eq_getLast?, hlast]; rfl
      by_cases hov : start + data.length ≤ MAX_LEN
      · have hib : start + data.length ≤ b.length := by rw [hbl]; exact hov
        have hcl : (copyFromSlice b start data).length = MAX_LEN := by
          rw [copyFromSlice_length b start data hib, hbl]
        have hcond : ¬(padded = [] ∨ MAX_LEN < start + data.length) := by
          rintro (hc | hc)
          · exact hne hc
          · omega
        simp [packStep, firstFitStep, hlast, hov, hcond, hib, hcl, hgd]
      · have hcond : padded = [] ∨ MAX_LEN < start + data.length := Or.inr (by omega)
        have hcl : (copyFromSlice (List.replicate MAX_LEN 0) 0 data).length = MAX_LEN := by
          rw [copy_fresh]
          exact mkBuffer_length _ (by simpa [groupContent] using hd)
        simp [packStep, firstFitStep, hlast, hov, hcond, hcl, hd,
          List.getLast?_concat, List.dropLast_concat, List.getLastD_eq_getLast?]
  · intro s1 s2 hs1 hs2
    have ht : ∀ s ∈ [s1, s2], s.length ≤ MAX_LEN := by
      intro s hs
      rcases List.mem_cons.mp hs with rfl | hs
      · omega
      · rcases List.mem_cons.mp hs with rfl | hs
        · rw [hs2]; decide
        · simp at hs
    rw [packTokens_eq_greedy _ ht]
    have hg1 : groupStep [] s1 = [[s1]] := by simp [groupStep]
    have hc : groupContent [s1] = MAX_LEN - 1 := by simp [groupContent, hs1]
    have hg2 : groupStep [[s1]] s2 = [[s1], [s2]] := by
      simp [groupStep, hc, hs2, MAX_LEN]
    have hG : greedyGroups [s1, s2] = [[s1], [s2]] := by
      simp [greedyGroups, List.foldl_cons, hg1, hg2]
    rw [hG]
    have hb1 : mkBuffer [s1] = s1 ++ List.replicate 1 0 := by
      unfold mkBuffer
      simp only [List.flatten_cons, List.flatten_nil, List.append_nil]
      rw [hs1]
      have he : MAX_LEN - (MAX_LEN - 1) = 1 := by decide
      rw [he]
    have hb2 : mkBuffer [s2] = s2 ++ List.replicate (MAX_LEN - 5) 0 := by
      unfold mkBuffer
      simp only [List.flatten_cons, List.flatten_nil, List.append_nil]
      rw [hs2]
    rw [List.map_cons, List.map_cons, List.map_nil, hb1, hb2]

/-- Witness for C2 at two concrete sequences of lengths `MAX_LEN - 1` and 5. -/
theorem packer_first_fit_policy_witness :
    packTokens [List.replicate (MAX_LEN - 1) 1, List.replicate 5 2]
      = some [List.replicate (MAX_LEN - 1) 1 ++ List.replicate 1 0,
              List.replicate 5 2 ++ List.replicate (MAX_LEN - 5) 0] :=
  packer_first_fit_policy.2 _ _ (by simp) (by simp)

/-- C3: every PackedBuffer the Packer produces has length exactly
`MAX_LEN = 4096`; the buffers are exactly the greedy groups' contents
zero-padded, each group's total token count is at most `MAX_LEN`, and every
buffer position at or beyond the group's content (the last written offset)
holds the padding sentinel 0. -/
theorem packed_buffer_invariants (tokens : List (List Nat))
    (h : ∀ s ∈ tokens, s.length ≤ MAX_LEN) :
    ∃ bufs, packTokens tokens = some bufs ∧
      MAX_LEN = 4096 ∧
      bufs = (greedyGroups tokens).map mkBuffer ∧
      (∀ b ∈ bufs, b.length = MAX_LEN) ∧
      (∀ g ∈ greedyGroups tokens, groupContent g ≤ MAX_LEN) ∧
      (∀ g ∈ greedyGroups tokens, ∀ i, g.flatten.length ≤ i → i < MAX_LEN →
        (mkBuffer g)[i]? = some 0) := by
  refine ⟨(greedyGroups tokens).map mkBuffer, packTokens_eq_greedy tokens h, rfl, rfl,
    ?_, ?_, ?_⟩
  · intro b hb
    obtain ⟨g, hg, rfl⟩ := List.mem_map.mp hb
    exact mkBuffer_length g ((groupsInv_greedy tokens h g hg).2)
  · exact fun g hg => (groupsInv_greedy tokens h g hg).2
  · exact fun g _ i h1 h2 => mkBuffer_padding g i h1 h2

/-- Witness for C3 at the concrete input `[[5]]`. -/
theorem packed_buffer_invariants_witness :
    ∃ bufs, packTokens [[5]] = some bufs ∧
      MAX_LEN = 4096 ∧
      bufs = (greedyGroups [[5]]).map mkBuffer ∧
      (∀ b ∈ bufs, b.length = MAX_LEN) ∧
      (∀ g ∈ greedyGroups [[5]], groupContent g ≤ MAX_LEN) ∧
      (∀ g ∈ greedyGroups [[5]], ∀ i, g.flatten.length ≤ i → i < MAX_LEN →
        (mkBuffer g)[i]? = some 0) :=
  packed_buffer_invariants [[5]] (by decide)

/-- Concrete sequence of 2049 tokens used to refute the claimed ceiling
bound on the number of produced buffers. -/
def seq2049 : List Nat := List.replicate 2049 1

/-- Counterexample to C5 as stated: on three sequences of length 2049 the
Packer emits 3 buffers, but `⌈(3 · 2049) / MAX_LEN⌉ = ⌈6147 / 4096⌉ = 2`,
so the buffer count exceeds the claimed ceiling. -/
theorem packer_ceiling_counterexample :
    ∃ bufs, packTokens [seq2049, seq2049, seq2049] = some bufs ∧
      ¬(bufs.length ≤
        ((([seq2049, seq2049, seq2049].map List.length).sum + MAX_LEN - 1) / MAX_LEN)) := by
  have ht : ∀ s ∈ [seq2049, seq2049, seq2049], s.length ≤ MAX_LEN := by
    intro s hs
    have hl : s = seq2049 := by
      rcases List.mem_cons.mp hs with rfl | hs
      · rfl
      · rcases List.mem_cons.mp hs with rfl | hs
        · rfl
        · simpa using hs
    rw [hl, show seq2049.length = 2049 from List.length_replicate 2049 1]
    decide
  refine ⟨(greedyGroups [seq2049, seq2049, seq2049]).map mkBuffer,
    packTokens_eq_greedy _ ht, ?_⟩
  have hlen : seq2049.length = 2049 := List.length_replicate 2049 1
  have hc : groupContent [seq2049] = 2049 := by
    simp [groupContent, hlen]
  have h1 : groupStep [] seq2049 = [[seq2049]] := by simp [groupStep]
  have h2 : groupStep [[seq2049]] seq2049 = [[seq2049], [seq2049]] := by
    simp [groupStep, hc, hlen, MAX_LEN]
  have h3 : groupStep [[seq2049], [seq2049]] seq2049
      = [[seq2049], [seq2049], [seq2049]] := by
    simp [groupStep, hc, hlen, MAX_LEN]
  have hG : greedyGroups [seq2049, seq2049, seq2049]
      = [[seq2049], [seq2049], [seq2049]] := by
    simp [greedyGroups, List.foldl_cons, h1, h2, h3]
  rw [hG]
  simp [hlen, MAX_LEN]

/-- C5 amended: the buffer count is bounded below (not above) by the
ceiling `⌈(sum of input lengths) / MAX_LEN⌉`, and above by the number of
input sequences. -/
theorem packer_buffer_count (tokens : List (List Nat))
    (h : ∀ s ∈ tokens, s.length ≤ MAX_LEN) :
    ∃ bufs, packTokens tokens = some bufs ∧
      ((tokens.map List.length).sum + MAX_LEN - 1) / MAX_LEN ≤ bufs.length ∧
      bufs.length ≤ tokens.length := by
  refine ⟨(greedyGroups tokens).map mkBuffer, packTokens_eq_greedy tokens h, ?_, ?_⟩
  · have hsum : ((greedyGroups tokens).map groupContent).sum
        = (tokens.map List.length).sum := by
      rw [sum_map_groupContent, flatten_greedyGroups]
    have hle := sum_groupContent_le (greedyGroups tokens)
      (fun g hg => (groupsInv_greedy tokens h g hg).2)
    rw [hsum] at hle
    have := ceil_div_le_of_le_mul ((tokens.map List.length).sum)
      (greedyGroups tokens).length MAX_LEN (by decide) hle
    simpa using this
  · have hne := length_le_length_flatten (greedyGroups tokens)
      (fun g hg => (groupsInv_greedy tokens h g hg).1)
    rw [flatten_greedyGroups] at hne
    simpa using hne

/-- Witness for the amended C5 at the concrete input `[[9]]`. -/
theorem packer_buffer_count_witness :
    ∃ bufs, packTokens [[9]] = some bufs ∧
      (([[9]].map List.length).sum + MAX_LEN - 1) / MAX_LEN ≤ bufs.length ∧
      bufs.length ≤ [[9]].length :=
  packer_buffer_count [[9]] (by decide)

/-- C9: a nonempty input always yields at least one buffer, and an input of
`n > 0` empty sequences yields exactly one all-zero buffer of length
`MAX_LEN`. -/
theorem packer_nonempty_output :
    (∀ tokens bufs, tokens ≠ [] → (∀ s ∈ tokens, s.length ≤ MAX_LEN) →
        packTokens tokens = some bufs → 1 ≤ bufs.length) ∧
    (∀ n, 0 < n →
        packTokens (List.replicate n ([] : List Nat))
          = some [List.replicate MAX_LEN 0]) := by
  constructor
  · intro tokens bufs hne h hp
    have he := packTokens_eq_greedy tokens h
    rw [hp] at he
    obtain rfl : bufs = (greedyGroups tokens).map mkBuffer := by
      injection he
    have hgne : greedyGroups tokens ≠ [] := by
      intro hc
      have := flatten_greedyGroups tokens
      rw [hc] at this
      exact hne this.symm
    have := List.length_pos.mpr hgne
    simpa using this
  · intro n hn
    have ht : ∀ s ∈ List.replicate n ([] : List Nat), s.length ≤ MAX_LEN := by
      intro s hs
      rw [List.eq_of_mem_replicate hs]
      decide
    rw [packTokens_eq_greedy _ ht]
    obtain ⟨m, rfl⟩ : ∃ m, n = m + 1 := ⟨n - 1, by omega⟩
    have hG : greedyGroups (List.replicate (m + 1) ([] : List Nat))
        = [List.replicate (m + 1) []] := by
      unfold greedyGroups
      rw [List.replicate_succ, List.foldl_cons]
      have h0 : groupStep [] ([] : List Nat) = [List.replicate 1 []] := by
        simp [groupStep, List.replicate]
      rw [h0, foldl_groupStep_replicate_nil m 1 (by omega), Nat.add_comm 1 m,
        List.replicate_succ]
    rw [hG]
    have hb : mkBuffer (List.replicate (m + 1) []) = List.replicate MAX_LEN 0 := by
      unfold mkBuffer
      rw [flatten_replicate_nil]
      simp
    rw [List.map_cons, List.map_nil, hb]

/-- Witness for C9: one empty sequence yields one all-padding buffer. -/
theorem packer_nonempty_output_witness :
    packTokens (List.replicate 1 ([] : List Nat)) = some [List.replicate MAX_LEN 0] :=
  packer_nonempty_output.2 1 (by decide)

/-- C10: under the Encoder's guarantee that every sequence is strictly
shorter than `MAX_LEN`, the packing loop never panics — every copy is in
bounds, so the loop returns buffers rather than `none`, and the
`assert_eq!(buffer.len(), MAX_LEN)` assertion holds for every buffer. -/
theorem packer_no_panic (tokens : List (List Nat))
    (h : ∀ s ∈ tokens, s.length < MAX_LEN) :
    ∃ bufs, packTokens tokens = some bufs ∧ ∀ b ∈ bufs, b.length = MAX_LEN := by
  have h2 : ∀ s ∈ tokens, s.length ≤ MAX_LEN := fun s hs => Nat.le_of_lt (h s hs)
  refine ⟨(greedyGroups tokens).map mkBuffer, packTokens_eq_greedy tokens h2, ?_⟩
  intro b hb
  obtain ⟨g, hg, rfl⟩ := List.mem_map.mp hb
  exact mkBuffer_length g ((groupsInv_greedy tokens h2 g hg).2)

/-- Witness for C10 at the concrete input `[[1]]`. -/
theorem packer_no_panic_witness :
    ∃ bufs, packTokens [[1]] = some bufs ∧ ∀ b ∈ bufs, b.length = MAX_LEN :=
  packer_no_panic [[1]] (by decide)

/-- C4: the Encoder's output is exactly the encodings that succeed and are
strictly shorter than `MAX_LEN` (failed or oversize prompts are dropped);
a tokenizer failure never aborts the run (an all-parsing input still yields
`ok`); and every non-padding token in every packed buffer comes from an
accepted sequence, so no token of a dropped prompt reaches the dataset. -/
theorem encoder_filter (encode : String → Option (List Nat)) (text : List String) :
    (∀ s : List Nat, s ∈ encodeTokens encode text ↔
        s.length < MAX_LEN ∧ ∃ p ∈ text, encode p = some s) ∧
    (∀ bufs, packTokens (encodeTokens encode text) = some bufs →
        ∀ b ∈ bufs, ∀ x ∈ b, x = 0 ∨ ∃ s ∈ encodeTokens encode text, x ∈ s) ∧
    (∀ files : List (Except String (List DataItem)),
        (∀ f ∈ files, ∃ d, f = Except.ok d) →
        ∃ dataset, runPipeline encode files = Except.ok dataset) := by
  refine ⟨?_, ?_, ?_⟩
  · intro s
    constructor
    · intro hs
      obtain ⟨hm, hf⟩ := List.mem_filter.mp hs
      refine ⟨by simpa using hf, ?_⟩
      exact List.mem_filterMap.mp hm
    · rintro ⟨hlt, p, hp, hps⟩
      exact List.mem_filter.mpr ⟨List.mem_filterMap.mpr ⟨p, hp, hps⟩, by simpa using hlt⟩
  · intro bufs hp b hb x hx
    have ht : ∀ s ∈ encodeTokens encode text, s.length ≤ MAX_LEN :=
      fun s hs => Nat.le_of_lt (encodeTokens_lt encode text s hs)
    have he := packTokens_eq_greedy _ ht
    rw [hp] at he
    obtain rfl : bufs = (greedyGroups (encodeTokens encode text)).map mkBuffer := by
      injection he
    obtain ⟨g, hg, rfl⟩ := List.mem_map.mp hb
    unfold mkBuffer at hx
    rcases List.mem_append.mp hx with hx | hx
    · right
      obtain ⟨s, hs, hxs⟩ := List.mem_flatten.mp hx
      have hst : s ∈ (greedyGroups (encodeTokens encode text)).flatten :=
        List.mem_flatten.mpr ⟨g, hg, hs⟩
      rw [flatten_greedyGroups] at hst
      exact ⟨s, hst, hxs⟩
    · left
      exact List.eq_of_mem_replicate hx
  · intro files hok
    exact pipelineLoop_ok encode files hok []

/-- Witness for C4: with a tokenizer that returns `[1, 2]`, the prompt
`"a"` is accepted. -/
theorem encoder_filter_witness :
    [1, 2] ∈ encodeTokens (fun _ => some [1, 2]) ["a"] :=
  ((encoder_filter (fun _ => some [1, 2]) ["a"]).1 [1, 2]).mpr
    ⟨by decide, "a", by simp, rfl⟩

/-- C7: a file that fails to read or parse aborts the whole run with an
error (no partial dataset is returned), and an empty (zero-record) file
contributes nothing — the run's result with it is identical to the run
without it. -/
theorem loader_fatal_and_empty_file :
    (∀ (encode : String → Option (List Nat)) files,
        (∃ msg, Except.error msg ∈ files) →
        ∃ e, runPipeline encode files = Except.error e) ∧
    (∀ (encode : String → Option (List Nat)) pre post,
        runPipeline encode (pre ++ Except.ok [] :: post)
          = runPipeline encode (pre ++ post)) := by
  constructor
  · intro encode files herr
    exact pipelineLoop_err encode files herr []
  · intro encode pre post
    exact pipelineLoop_skip_empty encode pre post []

/-- Witness for C7: a single unparsable file makes the run fail. -/
theorem loader_fatal_witness :
    ∃ e, runPipeline (fun _ => none) [Except.error "bad json"] = Except.error e :=
  loader_fatal_and_empty_file.1 (fun _ => none) [Except.error "bad json"]
    ⟨"bad json", by simp⟩

/-- Counterexample to C6 as stated: the formatted string is not the
concatenation of passage, one-byte delimiter, query, one-byte delimiter and
polarity marker for any choice of delimiters — the code appends one more
byte (a NUL terminator), as the example `{query := "q", pos := ["p"]}`
shows by a length count. -/
theorem formatter_counterexample :
    ¬ ∃ d1 d2 : Char,
        DataItem.format ⟨"q", ["p"], []⟩
          = ["p" ++ String.singleton d1 ++ "q" ++ String.singleton d2 ++ "+"] := by
  rintro ⟨d1, d2, h⟩
  have hf : DataItem.format ⟨"q", ["p"], []⟩ = ["p\x16q\x17+\x00"] := by decide
  rw [hf] at h
  injection h with h1 h2
  have hL := congrArg String.length h1
  rw [show ("p\x16q\x17+\x00" : String).length = 6 from by decide] at hL
  simp only [String.length_append, String.length_singleton,
    show ("p" : String).length = 1 from by decide,
    show ("q" : String).length = 1 from by decide,
    show ("+" : String).length = 1 from by decide] at hL
  omega

/-- C6 amended: the Formatter returns one string per positive passage
(marker `+`) followed by one per negative passage (marker `-`), preserving
order within each group, so `|pos| + |neg|` strings in all; each string is
passage, delimiter `\x16`, query, delimiter `\x17`, the polarity marker,
and a trailing NUL terminator. -/
theorem formatter_output (item : DataItem) :
    item.format
      = item.pos.map (fun p => p ++ "\x16" ++ item.query ++ "\x17" ++ "+" ++ "\x00")
        ++ item.neg.map (fun p => p ++ "\x16" ++ item.query ++ "\x17" ++ "-" ++ "\x00") ∧
    item.format.length = item.pos.length + item.neg.length := by
  have hf : item.format
      = item.pos.map (fun p => p ++ "\x16" ++ item.query ++ "\x17" ++ "+" ++ "\x00")
        ++ item.neg.map (fun p => p ++ "\x16" ++ item.query ++ "\x17" ++ "-" ++ "\x00") := by
    unfold DataItem.format
    dsimp only
    rw [foldl_push_map, foldl_push_map]
    simp
  refine ⟨hf, ?_⟩
  rw [hf]
  simp

/-- C8: `/len` answers with the decimal rendering of the dataset size;
`/item?idx=k` answers with the buffer at index `k` when `k` is in range and
with not-found otherwise; on the empty dataset `/len` is `"0"` and
`/item?idx=0` is not-found. -/
theorem server_routes :
    (∀ dataset : List (List Nat), dataset_len dataset = toString dataset.length) ∧
    (∀ (dataset : List (List Nat)) (k : Nat) (b : List Nat),
        dataset[k]? = some b → dataset_item dataset k = ItemResponse.ok b) ∧
    (∀ (dataset : List (List Nat)) (k : Nat),
        dataset.length ≤ k → dataset_item dataset k = ItemResponse.notFound) ∧
    dataset_len [] = "0" ∧ dataset_item [] 0 = ItemResponse.notFound := by
  refine ⟨fun _ => rfl, ?_, ?_, rfl, rfl⟩
  · intro d k b h
    simp [dataset_item, h]
  · intro d k h
    have hn : d[k]? = none := List.getElem?_eq_none h
    simp [dataset_item, hn]

/-- Witness for C8: a one-buffer dataset serves index 0. -/
theorem server_routes_witness :
    dataset_item [[7]] 0 = ItemResponse.ok [7] :=
  server_routes.2.1 [[7]] 0 [7] rfl

/-- Witness for the amended C6 at a concrete example with one positive and
one negative passage. -/
theorem formatter_output_witness :
    DataItem.format ⟨"q", ["p"], ["n"]⟩
        = (["p"].map (fun p => p ++ "\x16" ++ "q" ++ "\x17" ++ "+" ++ "\x00")
          ++ ["n"].map (fun p => p ++ "\x16" ++ "q" ++ "\x17" ++ "-" ++ "\x00")) ∧
      (DataItem.format ⟨"q", ["p"], ["n"]⟩).length = 2 :=
  formatter_output ⟨"q", ["p"], ["n"]⟩
